import Mathlib

/-!
# Order server (`src/server.cpp`): reservation engine and connection handler

A shallow embedding of the kitchen server.

* `std::map<K, V>` is modelled by its in-order listing, a `List (K × V)`.
  `mapFind` is `std::map::find` (first entry with the key) and `mapModify` is an
  update through `operator[]` of a key that is present.  All results below hold
  for arbitrary listings, in particular for the sorted, duplicate-free ones that
  a `std::map` can hold.
* `int` values are modelled by `Int`.  The only arithmetic of the engine is
  `required[ingredient]++` and `inventory[k] -= n` with `1 ≤ n ≤ inventory[k]`.
  The subtraction stays in range; the counter leaves the range of `int` only
  for an order with 2^31 or more occurrences of one ingredient, where the
  increment is a signed overflow, which C++ leaves undefined and which is not
  modelled.  The stream extraction `iss >> int` clamps to the 32-bit range as
  the library does.
* Reading an `int` that was never written (`count` or `foodId` after a failed
  extraction) yields a value supplied from outside, see `Uninit`.
* The globals `foods` and `inventory` are passed explicitly; the mutex makes
  `checkAndDeductInventory` run as one indivisible step, which is how it is
  modelled (a function from the ledger before to the result and the ledger
  after).
-/

namespace OrderServer

/-! ## Data model -/

/-- The `struct Food` of the server. -/
structure Food where
  id : Int
  name : String
  ingredients : List String
deriving DecidableEq, Repr

/-- The global `std::map<int, Food> foods`. -/
abbrev Foods := List (Int × Food)

/-- The global `std::map<std::string, int> inventory`. -/
abbrev Inventory := List (String × Int)

/-- The local `std::map<std::string, int> required`. -/
abbrev Required := List (String × Int)

/-- The lookup `m.find(k)`: the mapped value of the first entry with key `k`,
`none` standing for `m.end()`. -/
def mapFind {κ β : Type} [DecidableEq κ] (k : κ) : List (κ × β) → Option β
  | [] => none
  | (k', v) :: rest => if k = k' then some v else mapFind k rest

/-- The update `m[k] = f (m[k])` of a key that is present (an absent key leaves the
listing as it is: the engine never reaches `operator[]` with one). -/
def mapModify {κ β : Type} [DecidableEq κ] (k : κ) (f : β → β) : List (κ × β) → List (κ × β)
  | [] => []
  | (k', v) :: rest => if k = k' then (k', f v) :: rest else (k', v) :: mapModify k f rest

/-! ## `checkAndDeductInventory` -/

/-- The statement `required[ingredient]++` on the ordered map `required`: an absent
key is inserted at its place in key order (`std::string::operator<`, the
lexicographic order of the characters) with value `0` and then incremented. -/
def requiredIncr : Required → String → Required
  | [], ingredient => [(ingredient, 0 + 1)]
  | (k, n) :: rest, ingredient =>
    if ingredient = k then (k, n + 1) :: rest
    else if ingredient.data < k.data then (ingredient, 0 + 1) :: (k, n) :: rest
    else (k, n) :: requiredIncr rest ingredient

/-- The first loop of `checkAndDeductInventory`: `none` is the early
`return false` at a food id that is not in `foods`. -/
def collectRequired (foods : Foods) : List Int → Required → Option Required
  | [], required => some required
  | foodId :: rest, required =>
    match mapFind foodId foods with
    | none => none
    | some food => collectRequired foods rest (food.ingredients.foldl requiredIncr required)

/-- The negation of the test of the second loop: the ingredient is in the ledger
and `inventory[req.first] < req.second` is false. -/
def sufficient (inventory : Inventory) (req : String × Int) : Bool :=
  match mapFind req.1 inventory with
  | none => false
  | some quantity => !decide (quantity < req.2)

/-- The body of the third loop: `inventory[req.first] -= req.second`. -/
def deduct (inventory : Inventory) (req : String × Int) : Inventory :=
  mapModify req.1 (fun quantity => quantity - req.2) inventory

/-- The function `checkAndDeductInventory`, run under `inventory_mutex`: its return
value and the ledger afterwards. -/
def checkAndDeductInventory (foods : Foods) (inventory : Inventory) (foodIds : List Int) :
    Bool × Inventory :=
  match collectRequired foods foodIds [] with
  | none => (false, inventory)
  | some required =>
    if required.all (sufficient inventory) then (true, required.foldl deduct inventory)
    else (false, inventory)

/-- The function `getInventoryStatus`: the entries of the ledger in key order, each
as `name quantity;`, separated by one blank. -/
def getInventoryStatus (inventory : Inventory) : String :=
  " ".intercalate (inventory.map (fun item => item.1 ++ " " ++ toString item.2 ++ ";"))

/-- The outcome text `writeLog` writes for `success == true`. -/
def successMarker : String := "完成"

/-- The outcome text `writeLog` writes for `success == false`. -/
def failureMarker : String := "失败"

/-- One line of `order.log`, by the pieces `writeLog` streams into it. -/
structure LogRecord where
  time : String
  order : String
  outcome : String
  status : String
deriving DecidableEq, Repr

/-- The order as `writeLog` prints it: ids separated by commas, each followed by
`(name)` when the id is in `foods`. -/
def orderText (foods : Foods) (foodIds : List Int) : String :=
  ",".intercalate (foodIds.map (fun foodId =>
    match mapFind foodId foods with
    | none => toString foodId
    | some food => toString foodId ++ "(" ++ food.name ++ ")"))

/-- The function `writeLog` on the content of `order.log`; `logOpens` tells whether
`logFile.is_open()` holds. When it does not, the function reports on `cerr` and
returns without writing. `inventory` is the ledger `getInventoryStatus` reads
while the line is written. -/
def writeLog (foods : Foods) (inventory : Inventory) (orderLog : List LogRecord)
    (logOpens : Bool) (time : String) (foodIds : List Int) (success : Bool) : List LogRecord :=
  if !logOpens then orderLog
  else orderLog ++ [⟨time, orderText foods foodIds,
    if success then successMarker else failureMarker, getInventoryStatus inventory⟩]

/-! ## The request decoder of `handleClient` -/

/-- The largest `int`. -/
def INT_MAX : Int := 2147483647

/-- The smallest `int`. -/
def INT_MIN : Int := -2147483648

/-- The `std::istringstream iss`: the characters not yet read and two state bits. -/
structure IStream where
  rest : List Char
  failbit : Bool
  eofbit : Bool
deriving DecidableEq, Repr

/-- The test `iss.good()`. -/
def IStream.good (iss : IStream) : Bool := !iss.failbit && !iss.eofbit

/-- The white space of the classic locale, skipped before a number. -/
def isSpace (c : Char) : Bool :=
  c == ' ' || c == '\t' || c == '\n' || c == '\x0b' || c == '\x0c' || c == '\r'

/-- A decimal digit. -/
def isDigit (c : Char) : Bool := decide ('0'.toNat ≤ c.toNat) && decide (c.toNat ≤ '9'.toNat)

/-- The longest run of decimal digits at the front, accumulated onto `acc`, and the
characters after it. -/
def readDigits : List Char → Nat → Nat × List Char
  | [], acc => (acc, [])
  | c :: cs, acc =>
    if isDigit c then readDigits cs (acc * 10 + (c.toNat - '0'.toNat)) else (acc, c :: cs)

/-- The extraction `iss >> n` for an `int n`. The first component is the value
written to `n`, `none` when `n` is left untouched.

* A stream that is not `good()` only gets `failbit`; `n` is untouched.
* White space is skipped; at the end of the text the stream gets `eofbit` and
  `failbit` and `n` is untouched.
* Otherwise an optional sign and the longest run of digits are read. Without a
  digit `0` is written and `failbit` set; a value outside the range of `int` is
  replaced by the nearest bound and `failbit` set. Reaching the end of the text
  sets `eofbit`. -/
def extractInt (iss : IStream) : Option Int × IStream :=
  if !iss.good then (none, { iss with failbit := true })
  else
    match iss.rest.dropWhile isSpace with
    | [] => (none, ⟨[], true, true⟩)
    | c :: cs =>
      let body := if c == '-' || c == '+' then cs else c :: cs
      match body with
      | [] => (some 0, ⟨[], true, true⟩)
      | d :: ds =>
        if isDigit d then
          let r := readDigits (d :: ds) 0
          let v : Int := if c == '-' then -(r.1 : Int) else (r.1 : Int)
          if INT_MAX < v then (some INT_MAX, ⟨r.2, true, r.2.isEmpty⟩)
          else if v < INT_MIN then (some INT_MIN, ⟨r.2, true, r.2.isEmpty⟩)
          else (some v, ⟨r.2, false, r.2.isEmpty⟩)
        else (some 0, ⟨d :: ds, true, false⟩)

/-- The values the uninitialised locals `int count` and `int foodId` (one per loop
round) hold when an extraction leaves them untouched. -/
structure Uninit where
  count : Int
  foodId : Nat → Int

/-- The loop `for (int i = 0; i < count; i++) { int foodId; iss >> foodId;
foodIds.push_back(foodId); }`, with `n` rounds left and `i` the round. -/
def readFoodIds (u : Uninit) : Nat → Nat → IStream → List Int
  | 0, _, _ => []
  | n + 1, i, iss =>
    let r := extractInt iss
    r.1.getD (u.foodId i) :: readFoodIds u n (i + 1) r.2

/-- The text of the stream `std::istringstream iss(buffer)`: the received bytes up
to the first NUL. -/
def bufferText (received : List Char) : List Char :=
  received.takeWhile (fun c => c != '\x00')

/-- The decoding part of `handleClient`: `count` and `foodIds`. -/
def decodeOrder (received : List Char) (u : Uninit) : Int × List Int :=
  let r := extractInt ⟨bufferText received, false, false⟩
  let count := r.1.getD u.count
  (count, readFoodIds u count.toNat 0 r.2)

/-! ## `handleClient` -/

/-- What one run of `handleClient` leaves behind: the ledger, the content of
`order.log`, the texts sent to the client, and the orders that were handed to
`checkAndDeductInventory`. -/
structure Handled where
  inventory : Inventory
  orderLog : List LogRecord
  sent : List String
  reserved : List (List Int)
deriving DecidableEq, Repr

/-- The function `handleClient`. `received` holds the bytes `recv` wrote to the
buffer, at most 1023 of them (`bytesReceived` is its length, and `recv` returning
`0` or an error is the empty list), `time` is the result of `getCurrentTime()`. -/
def handleClient (foods : Foods) (inventory : Inventory) (orderLog : List LogRecord)
    (received : List Char) (time : String) (logOpens : Bool) (u : Uninit) : Handled :=
  if received.length ≤ 0 then ⟨inventory, orderLog, [], []⟩
  else
    let foodIds := (decodeOrder received u).2
    let r := checkAndDeductInventory foods inventory foodIds
    let orderLog' := writeLog foods r.2 orderLog logOpens time foodIds r.1
    let response := if r.1 then "1" else "-1"
    ⟨r.2, orderLog', [response], [foodIds]⟩

/-- Values for the uninitialised locals, used in the examples. -/
def zeroUninit : Uninit := ⟨0, fun _ => 0⟩

/-! ## Vocabulary of the specification -/

/-- The ingredient list a food id resolves to (empty for an unknown id). -/
def ingredientsOf (foods : Foods) (foodId : Int) : List String :=
  match mapFind foodId foods with
  | none => []
  | some food => food.ingredients

/-- Every ingredient occurrence of an order, item by item. -/
def occurrences (foods : Foods) : List Int → List String
  | [] => []
  | foodId :: rest => ingredientsOf foods foodId ++ occurrences foods rest

/-- Aggregated demand: how often the ingredient occurs in the ingredient lists of
the order's items. -/
def demand (foods : Foods) (order : List Int) (ingredient : String) : Nat :=
  (occurrences foods order).count ingredient

/-- Available stock, an ingredient absent from the ledger counting as `0`. -/
def stock (inventory : Inventory) (ingredient : String) : Int :=
  (mapFind ingredient inventory).getD 0

/-- The keys of a ledger, in order. -/
def keys (inventory : Inventory) : List String := inventory.map Prod.fst

/-- The keys of `required` are strictly increasing, as in a `std::map`. -/
def ReqSorted (required : Required) : Prop :=
  required.Pairwise (fun a b => a.1.data < b.1.data)

/-- The ledger after taking one unit per ingredient occurrence. -/
def unitDeduct (inventory : Inventory) (occs : List String) : Inventory :=
  occs.foldl (fun inv k => deduct inv (k, 1)) inventory

/-- Every ingredient that occurs is in the ledger with at least as many units as
it occurs. -/
def Covers (inventory : Inventory) (occs : List String) : Prop :=
  ∀ k ∈ occs, ∃ q, mapFind k inventory = some q ∧ (occs.count k : Int) ≤ q

/-- Every food id of the order is in the catalog. -/
def AllKnown (foods : Foods) (order : List Int) : Prop :=
  ∀ foodId ∈ order, ∃ food, mapFind foodId foods = some food

/-! ## Scenario data -/

/-- The food `1` of the scenarios. -/
def burger : Food := ⟨1, "Burger", ["bun", "patty"]⟩

/-- The food `2` of the scenarios. -/
def fries : Food := ⟨2, "Fries", ["potato"]⟩

/-- The catalog of Scenario 1. -/
def scenarioFoods : Foods := [(1, burger), (2, fries)]

/-- The ledger of Scenario 1. -/
def scenarioInventory : Inventory := [("bun", 2), ("patty", 2), ("potato", 5)]

/-- The ledger of Scenario 1 after the order `[1, 1]`. -/
def soldOutInventory : Inventory := [("bun", 0), ("patty", 0), ("potato", 5)]

theorem mapFind_mapModify {κ β : Type} [DecidableEq κ] (k k' : κ) (f : β → β)
    (m : List (κ × β)) :
    mapFind k' (mapModify k f m) = if k = k' then (mapFind k' m).map f else mapFind k' m := by
  induction m with
  | nil => simp [mapFind, mapModify]
  | cons e rest ih =>
    obtain ⟨a, v⟩ := e
    by_cases h1 : k = a
    · subst h1
      by_cases h2 : k = k'
      · subst h2; simp [mapFind, mapModify]
      · have h3 : ¬ k' = k := fun h => h2 h.symm
        simp [mapFind, mapModify, h2, h3]
    · by_cases h2 : k' = a
      · subst h2
        simp [mapFind, mapModify, h1]
      · simp [mapFind, mapModify, h1, h2, ih]

theorem map_fst_mapModify {κ β : Type} [DecidableEq κ] (k : κ) (f : β → β)
    (m : List (κ × β)) : (mapModify k f m).map Prod.fst = m.map Prod.fst := by
  induction m with
  | nil => rfl
  | cons e rest ih =>
    obtain ⟨a, v⟩ := e
    by_cases h1 : k = a
    · simp [mapModify, h1]
    · simp [mapModify, h1, ih]

theorem mapModify_comm {κ β : Type} [DecidableEq κ] (a b : κ) (f g : β → β)
    (hfg : ∀ x, f (g x) = g (f x)) (m : List (κ × β)) :
    mapModify a f (mapModify b g m) = mapModify b g (mapModify a f m) := by
  induction m with
  | nil => rfl
  | cons e rest ih =>
    obtain ⟨c, v⟩ := e
    by_cases h1 : a = c <;> by_cases h2 : b = c <;> simp [mapModify, h1, h2, ih, hfg]

theorem mapModify_mapModify {κ β : Type} [DecidableEq κ] (a : κ) (f g : β → β)
    (m : List (κ × β)) :
    mapModify a f (mapModify a g m) = mapModify a (fun x => f (g x)) m := by
  induction m with
  | nil => rfl
  | cons e rest ih =>
    obtain ⟨c, v⟩ := e
    by_cases h1 : a = c <;> simp [mapModify, h1, ih]

theorem mem_of_mapFind {κ β : Type} [DecidableEq κ] (k : κ) (v : β) (m : List (κ × β))
    (h : mapFind k m = some v) : (k, v) ∈ m := by
  induction m with
  | nil => simp [mapFind] at h
  | cons e rest ih =>
    obtain ⟨c, w⟩ := e
    by_cases h1 : k = c
    · subst h1
      simp [mapFind] at h
      simp [h]
    · simp [mapFind, h1] at h
      exact List.mem_cons_of_mem _ (ih h)

theorem mapFind_isSome_of_mem {κ β : Type} [DecidableEq κ] (k : κ) (v : β)
    (m : List (κ × β)) (h : (k, v) ∈ m) : ∃ w, mapFind k m = some w := by
  induction m with
  | nil => simp at h
  | cons e rest ih =>
    obtain ⟨c, w⟩ := e
    by_cases h1 : k = c
    · exact ⟨w, by simp [mapFind, h1]⟩
    · have h2 : (k, v) ∈ rest := by
        rcases List.mem_cons.mp h with h3 | h3
        · exact absurd (congrArg Prod.fst h3) h1
        · exact h3
      obtain ⟨u, hu⟩ := ih h2
      exact ⟨u, by simp [mapFind, h1, hu]⟩

theorem reqSorted_requiredIncr (m : Required) (k : String) (h : ReqSorted m) :
    ReqSorted (requiredIncr m k) ∧
      ∀ e ∈ requiredIncr m k, e.1 = k ∨ e ∈ m := by
  induction m with
  | nil => simp [requiredIncr, ReqSorted]
  | cons e rest ih =>
    obtain ⟨c, n⟩ := e
    have hs := List.pairwise_cons.mp h
    by_cases h1 : k = c
    · subst h1
      simp only [requiredIncr, if_true]
      refine ⟨List.pairwise_cons.mpr ⟨hs.1, hs.2⟩, ?_⟩
      intro e he
      rcases List.mem_cons.mp he with h2 | h2
      · exact Or.inl (by rw [h2])
      · exact Or.inr (List.mem_cons_of_mem _ h2)
    · by_cases h2 : k.data < c.data
      · simp only [requiredIncr, h1, h2, if_true, if_false]
        refine ⟨List.pairwise_cons.mpr ⟨?_, h⟩, ?_⟩
        · intro e he
          rcases List.mem_cons.mp he with h3 | h3
          · rw [h3]; exact h2
          · exact lt_trans h2 (hs.1 e h3)
        · intro e he
          rcases List.mem_cons.mp he with h3 | h3
          · exact Or.inl (by rw [h3])
          · exact Or.inr h3
      · simp only [requiredIncr, h1, h2, if_false]
        obtain ⟨ih1, ih2⟩ := ih hs.2
        have hck : c.data < k.data := by
          have hne : c.data ≠ k.data := fun hd => h1 (String.ext hd).symm
          exact lt_of_le_of_ne (not_lt.mp h2) hne
        refine ⟨List.pairwise_cons.mpr ⟨?_, ih1⟩, ?_⟩
        · intro e he
          rcases ih2 e he with h3 | h3
          · rw [h3]; exact hck
          · exact hs.1 e h3
        · intro e he
          rcases List.mem_cons.mp he with h3 | h3
          · exact Or.inr (by simp [h3])
          · rcases ih2 e h3 with h4 | h4
            · exact Or.inl h4
            · exact Or.inr (List.mem_cons_of_mem _ h4)

theorem mapFind_none_of_lt (m : Required) (k : String)
    (h : ∀ e ∈ m, k.data < e.1.data) : mapFind k m = none := by
  induction m with
  | nil => rfl
  | cons e rest ih =>
    obtain ⟨c, n⟩ := e
    have h1 : k ≠ c := by
      intro hkc
      have := h (c, n) (List.mem_cons_self _ _)
      rw [hkc] at this
      exact lt_irrefl _ this
    simp only [mapFind, h1, if_false]
    exact ih (fun e he => h e (List.mem_cons_of_mem _ he))

theorem mapFind_requiredIncr (m : Required) (k k' : String) (h : ReqSorted m) :
    mapFind k' (requiredIncr m k) =
      if k = k' then some ((mapFind k m).getD 0 + 1) else mapFind k' m := by
  induction m with
  | nil =>
    by_cases h1 : k = k'
    · subst h1; simp [requiredIncr, mapFind]
    · have h2 : ¬ k' = k := fun h => h1 h.symm
      simp [requiredIncr, mapFind, h1, h2]
  | cons e rest ih =>
    obtain ⟨c, n⟩ := e
    have hs := List.pairwise_cons.mp h
    by_cases h1 : k = c
    · subst h1
      by_cases h2 : k = k'
      · subst h2; simp [requiredIncr, mapFind]
      · have h3 : ¬ k' = k := fun h => h2 h.symm
        simp [requiredIncr, mapFind, h2, h3]
    · by_cases h2 : k.data < c.data
      · have hnone : mapFind k rest = none :=
          mapFind_none_of_lt rest k (fun e he => lt_trans h2 (hs.1 e he))
        by_cases h3 : k = k'
        · subst h3
          simp [requiredIncr, mapFind, h1, h2, hnone]
        · have h4 : ¬ k' = k := fun h => h3 h.symm
          simp [requiredIncr, mapFind, h1, h2, h3, h4]
      · by_cases h3 : k = k'
        · subst h3
          simp [requiredIncr, mapFind, h1, h2, ih hs.2]
        · by_cases h4 : k' = c
          · simp [requiredIncr, mapFind, h1, h2, h3, h4]
          · simp [requiredIncr, mapFind, h1, h2, h3, h4, ih hs.2]

/-- In a sorted `required` every entry is the one `find` returns for its key. -/
theorem mapFind_of_mem_sorted (m : Required) (h : ReqSorted m) (e : String × Int)
    (he : e ∈ m) : mapFind e.1 m = some e.2 := by
  induction m with
  | nil => simp at he
  | cons e0 rest ih =>
    obtain ⟨c, n⟩ := e0
    have hs := List.pairwise_cons.mp h
    rcases List.mem_cons.mp he with h1 | h1
    · subst h1; simp [mapFind]
    · have h2 : e.1 ≠ c := by
        intro hc
        have := hs.1 e h1
        rw [hc] at this
        exact lt_irrefl _ this
      simp only [mapFind, h2, if_false]
      exact ih hs.2 h1

/-- What `required` holds after the ingredient occurrences `occs` were counted into
the empty map. -/
theorem required_of_occurrences (occs : List String) :
    ReqSorted (occs.foldl requiredIncr []) ∧
      ∀ k, mapFind k (occs.foldl requiredIncr []) =
        if occs.count k = 0 then none else some (occs.count k : Int) := by
  induction occs using List.reverseRecOn with
  | nil => simp [ReqSorted, mapFind]
  | append_singleton occs i ih =>
    obtain ⟨ihs, ihf⟩ := ih
    rw [List.foldl_append]
    simp only [List.foldl_cons, List.foldl_nil]
    refine ⟨(reqSorted_requiredIncr _ i ihs).1, ?_⟩
    intro k
    rw [mapFind_requiredIncr _ i k ihs, ihf i, ihf k]
    by_cases h1 : i = k
    · subst h1
      by_cases h2 : occs.count i = 0
      · simp [h2]
      · simp [h2]
    · have h2 : ¬ (i == k) = true := by simpa using h1
      simp [h1, List.count_append, List.count_cons, h2]

/-! ## Lemmas on the three loops -/

theorem collectRequired_of_allKnown (foods : Foods) (order : List Int) (req : Required)
    (h : AllKnown foods order) :
    collectRequired foods order req = some ((occurrences foods order).foldl requiredIncr req) := by
  induction order generalizing req with
  | nil => rfl
  | cons foodId rest ih =>
    obtain ⟨food, hf⟩ := h foodId (List.mem_cons_self _ _)
    have hrest : AllKnown foods rest := fun x hx => h x (List.mem_cons_of_mem _ hx)
    simp only [collectRequired, hf, occurrences, ingredientsOf, List.foldl_append]
    exact ih _ hrest

theorem collectRequired_of_unknown (foods : Foods) (order : List Int) (req : Required)
    (h : ¬ AllKnown foods order) : collectRequired foods order req = none := by
  induction order generalizing req with
  | nil => exact absurd (fun x hx => by simp at hx) h
  | cons foodId rest ih =>
    cases hf : mapFind foodId foods with
    | none => simp [collectRequired, hf]
    | some food =>
      simp only [collectRequired, hf]
      apply ih
      intro hrest
      apply h
      intro x hx
      rcases List.mem_cons.mp hx with h1 | h1
      · exact ⟨food, by rw [h1]; exact hf⟩
      · exact hrest x h1

theorem deduct_comm (inv : Inventory) (a b : String × Int) :
    deduct (deduct inv a) b = deduct (deduct inv b) a := by
  unfold deduct
  exact mapModify_comm b.1 a.1 _ _ (fun x => by ring) inv

theorem foldl_deduct_comm (m : Required) (inv : Inventory) (e : String × Int) :
    m.foldl deduct (deduct inv e) = deduct (m.foldl deduct inv) e := by
  induction m generalizing inv with
  | nil => rfl
  | cons e0 rest ih =>
    simp only [List.foldl_cons]
    rw [deduct_comm inv e e0]
    exact ih _

theorem deduct_succ (inv : Inventory) (k : String) (n : Int) :
    deduct inv (k, n + 1) = deduct (deduct inv (k, n)) (k, 1) := by
  unfold deduct
  rw [mapModify_mapModify]
  congr 1
  funext x
  simp only
  ring

theorem foldl_deduct_requiredIncr (m : Required) (inv : Inventory) (k : String) :
    (requiredIncr m k).foldl deduct inv = deduct (m.foldl deduct inv) (k, 1) := by
  induction m generalizing inv with
  | nil => simp [requiredIncr]
  | cons e rest ih =>
    obtain ⟨c, n⟩ := e
    by_cases h1 : k = c
    · subst h1
      simp only [requiredIncr, if_true, List.foldl_cons]
      rw [deduct_succ, foldl_deduct_comm]
    · by_cases h2 : k.data < c.data
      · simp only [requiredIncr, h1, h2, if_true, if_false, List.foldl_cons, zero_add]
        rw [deduct_comm, foldl_deduct_comm]
      · simp only [requiredIncr, h1, h2, if_false, List.foldl_cons]
        exact ih _

theorem unitDeduct_append (inv : Inventory) (a b : List String) :
    unitDeduct inv (a ++ b) = unitDeduct (unitDeduct inv a) b := by
  simp [unitDeduct, List.foldl_append]

theorem foldl_deduct_required (inv : Inventory) (occs : List String) :
    (occs.foldl requiredIncr []).foldl deduct inv = unitDeduct inv occs := by
  induction occs using List.reverseRecOn with
  | nil => rfl
  | append_singleton occs i ih =>
    rw [List.foldl_append, unitDeduct_append]
    simp only [List.foldl_cons, List.foldl_nil]
    rw [foldl_deduct_requiredIncr, ih]
    rfl

theorem all_sufficient_iff (inv : Inventory) (occs : List String) :
    (occs.foldl requiredIncr []).all (sufficient inv) = true ↔ Covers inv occs := by
  obtain ⟨hs, hf⟩ := required_of_occurrences occs
  rw [List.all_eq_true]
  constructor
  · intro h k hk
    have hc : occs.count k ≠ 0 := by
      have := List.count_pos_iff.mpr hk
      omega
    have hk2 := hf k
    rw [if_neg hc] at hk2
    have hsuf := h _ (mem_of_mapFind _ _ _ hk2)
    unfold sufficient at hsuf
    cases hq : mapFind k inv with
    | none => simp [hq] at hsuf
    | some q =>
      simp [hq] at hsuf
      exact ⟨q, rfl, hsuf⟩
  · intro h e he
    have h1 := mapFind_of_mem_sorted _ hs e he
    rw [hf e.1] at h1
    by_cases hc : occs.count e.1 = 0
    · simp [hc] at h1
    · rw [if_neg hc] at h1
      have hmem : e.1 ∈ occs := List.count_pos_iff.mp (Nat.pos_of_ne_zero hc)
      obtain ⟨q, hq, hle⟩ := h e.1 hmem
      have h2 : e.2 = (occs.count e.1 : Int) := (Option.some.inj h1).symm
      unfold sufficient
      simp [hq, h2, hle]

/-! ## What `checkAndDeductInventory` computes -/

theorem check_of_covers (foods : Foods) (inv : Inventory) (order : List Int)
    (hk : AllKnown foods order) (hc : Covers inv (occurrences foods order)) :
    checkAndDeductInventory foods inv order =
      (true, unitDeduct inv (occurrences foods order)) := by
  unfold checkAndDeductInventory
  rw [collectRequired_of_allKnown foods order [] hk]
  simp only
  rw [if_pos ((all_sufficient_iff inv _).mpr hc), foldl_deduct_required]

theorem check_of_unknown (foods : Foods) (inv : Inventory) (order : List Int)
    (hk : ¬ AllKnown foods order) :
    checkAndDeductInventory foods inv order = (false, inv) := by
  unfold checkAndDeductInventory
  rw [collectRequired_of_unknown foods order [] hk]

theorem check_of_short (foods : Foods) (inv : Inventory) (order : List Int)
    (hc : ¬ Covers inv (occurrences foods order)) :
    checkAndDeductInventory foods inv order = (false, inv) := by
  by_cases hk : AllKnown foods order
  · unfold checkAndDeductInventory
    rw [collectRequired_of_allKnown foods order [] hk]
    simp only
    rw [if_neg (fun h => hc ((all_sufficient_iff inv _).mp h))]
  · exact check_of_unknown foods inv order hk

theorem check_false_unchanged (foods : Foods) (inv : Inventory) (order : List Int)
    (h : (checkAndDeductInventory foods inv order).1 = false) :
    checkAndDeductInventory foods inv order = (false, inv) := by
  by_cases hk : AllKnown foods order
  · by_cases hc : Covers inv (occurrences foods order)
    · rw [check_of_covers foods inv order hk hc] at h; simp at h
    · exact check_of_short foods inv order hc
  · exact check_of_unknown foods inv order hk

/-! ## The ledger after a successful reservation -/

theorem map_fst_unitDeduct (inv : Inventory) (occs : List String) :
    (unitDeduct inv occs).map Prod.fst = inv.map Prod.fst := by
  induction occs generalizing inv with
  | nil => rfl
  | cons i rest ih =>
    have h : unitDeduct inv (i :: rest) = unitDeduct (deduct inv (i, 1)) rest := rfl
    rw [h, ih]
    exact map_fst_mapModify _ _ _

theorem mapFind_deduct_one (inv : Inventory) (i k : String) :
    mapFind k (deduct inv (i, 1)) =
      if i = k then (mapFind k inv).map (fun q => q - 1) else mapFind k inv := by
  unfold deduct
  exact mapFind_mapModify i k _ inv

theorem mapFind_unitDeduct (inv : Inventory) (occs : List String) (k : String) :
    mapFind k (unitDeduct inv occs) = (mapFind k inv).map (fun q => q - (occs.count k : Int)) := by
  induction occs generalizing inv with
  | nil => simp [unitDeduct]
  | cons i rest ih =>
    have h : unitDeduct inv (i :: rest) = unitDeduct (deduct inv (i, 1)) rest := rfl
    rw [h, ih, mapFind_deduct_one]
    by_cases h1 : i = k
    · subst h1
      cases mapFind i inv with
      | none => simp
      | some q =>
        simp only [if_true, Option.map_some', List.count_cons_self, Nat.cast_add, Nat.cast_one]
        congr 1
        ring
    · have h2 : ¬ (i == k) = true := by simpa using h1
      simp [h1, List.count_cons, h2]

theorem allKnown_of_isSome (foods : Foods) (order : List Int)
    (h : ∀ foodId ∈ order, (mapFind foodId foods).isSome = true) : AllKnown foods order := by
  intro x hx
  exact Option.isSome_iff_exists.mp (h x hx)

theorem covers_of_demand_le (foods : Foods) (inv : Inventory) (order : List Int)
    (h : ∀ k, (demand foods order k : Int) ≤ stock inv k) :
    Covers inv (occurrences foods order) := by
  intro k hk
  have hpos : 0 < (occurrences foods order).count k := List.count_pos_iff.mpr hk
  have hk2 := h k
  unfold demand stock at hk2
  cases hq : mapFind k inv with
  | none =>
    rw [hq] at hk2
    simp at hk2
    omega
  | some q =>
    rw [hq] at hk2
    exact ⟨q, rfl, by simpa using hk2⟩

/-- C1: when every id of the order is in the catalog and the aggregated demand of
every ingredient is at most its stock, `checkAndDeductInventory` returns `true`,
every demanded ingredient ends with its old quantity minus its demand, every
other ingredient keeps its quantity, and the ledger keeps its keys. -/
theorem C1_covered_order_is_deducted (foods : Foods) (inventory : Inventory)
    (order : List Int)
    (hknown : ∀ foodId ∈ order, (mapFind foodId foods).isSome = true)
    (hdemand : ∀ ingredient, (demand foods order ingredient : Int) ≤ stock inventory ingredient) :
    (checkAndDeductInventory foods inventory order).1 = true ∧
    (∀ ingredient, 0 < demand foods order ingredient →
      ∃ q, mapFind ingredient inventory = some q ∧
        mapFind ingredient (checkAndDeductInventory foods inventory order).2
          = some (q - (demand foods order ingredient : Int))) ∧
    (∀ ingredient, demand foods order ingredient = 0 →
      mapFind ingredient (checkAndDeductInventory foods inventory order).2
        = mapFind ingredient inventory) ∧
    keys (checkAndDeductInventory foods inventory order).2 = keys inventory := by
  have hk := allKnown_of_isSome foods order hknown
  have hc := covers_of_demand_le foods inventory order hdemand
  rw [check_of_covers foods inventory order hk hc]
  refine ⟨rfl, ?_, ?_, map_fst_unitDeduct _ _⟩
  · intro k hpos
    obtain ⟨q, hq, _⟩ := hc k (List.count_pos_iff.mp hpos)
    refine ⟨q, hq, ?_⟩
    simp only
    rw [mapFind_unitDeduct, hq]
    rfl
  · intro k hzero
    simp only
    rw [mapFind_unitDeduct]
    unfold demand at hzero
    rw [hzero]
    cases mapFind k inventory <;> simp

/-- C3: an order with a food id that is not in the catalog is rejected as a whole,
wherever the id stands: `checkAndDeductInventory` returns `false` and the ledger
is the ledger before. -/
theorem C3_unknown_food_is_rejected (foods : Foods) (inventory : Inventory)
    (order : List Int) (hunknown : ∃ foodId ∈ order, mapFind foodId foods = none) :
    checkAndDeductInventory foods inventory order = (false, inventory) := by
  apply check_of_unknown
  intro hk
  obtain ⟨x, hx, hnone⟩ := hunknown
  obtain ⟨food, hf⟩ := hk x hx
  rw [hnone] at hf
  exact Option.noConfusion hf

/-- C9: an order that `checkAndDeductInventory` rejected is rejected again when it
is run on the ledger the first run left, and the ledger is still the one before
the first run. -/
theorem C9_failed_order_fails_again (foods : Foods) (inventory : Inventory)
    (order : List Int) (hfail : (checkAndDeductInventory foods inventory order).1 = false) :
    checkAndDeductInventory foods (checkAndDeductInventory foods inventory order).2 order
      = (false, inventory) := by
  rw [check_false_unchanged foods inventory order hfail]
  exact check_false_unchanged foods inventory order hfail

/-- C1 at Scenario 1: the order `[1, 1]` on `{bun:2, patty:2, potato:5}` is covered,
returns `true` and leaves `{bun:0, patty:0, potato:5}`. -/
theorem C1_witness_scenario_one :
    (∀ foodId ∈ [1, 1], (mapFind foodId scenarioFoods).isSome = true) ∧
    (∀ ingredient, (demand scenarioFoods [1, 1] ingredient : Int)
      ≤ stock scenarioInventory ingredient) ∧
    (checkAndDeductInventory scenarioFoods scenarioInventory [1, 1]).1 = true ∧
    checkAndDeductInventory scenarioFoods scenarioInventory [1, 1]
      = (true, [("bun", 0), ("patty", 0), ("potato", 5)]) := by
  have h1 : ∀ foodId ∈ [1, 1], (mapFind foodId scenarioFoods).isSome = true := by decide
  have h2 : ∀ ingredient, (demand scenarioFoods [1, 1] ingredient : Int)
      ≤ stock scenarioInventory ingredient := by
    intro k
    by_cases hb : k = "bun"
    · subst hb; decide
    · by_cases hp : k = "patty"
      · subst hp; decide
      · have hd : demand scenarioFoods [1, 1] k = 0 := by
          apply List.count_eq_zero_of_not_mem
          simp [occurrences, ingredientsOf, scenarioFoods, mapFind, burger, hb, hp]
        rw [hd]
        by_cases ho : k = "potato"
        · subst ho; decide
        · simp [stock, scenarioInventory, mapFind, hb, hp, ho]
  exact ⟨h1, h2, (C1_covered_order_is_deducted scenarioFoods scenarioInventory [1, 1] h1 h2).1,
    by decide⟩

/-- C3 on an order with one valid, in-stock item and one unknown item. -/
theorem C3_witness_mixed_order :
    (∃ foodId ∈ [1, 99], mapFind foodId scenarioFoods = none) ∧
    checkAndDeductInventory scenarioFoods scenarioInventory [1, 99]
      = (false, scenarioInventory) :=
  ⟨by decide, C3_unknown_food_is_rejected scenarioFoods scenarioInventory [1, 99] (by decide)⟩

/-- C9 at Scenario 1: the order `[1]` fails on `{bun:0, patty:0, potato:5}` and fails
again. -/
theorem C9_witness_sold_out :
    (checkAndDeductInventory scenarioFoods soldOutInventory [1]).1 = false ∧
    checkAndDeductInventory scenarioFoods
      (checkAndDeductInventory scenarioFoods soldOutInventory [1]).2 [1]
        = (false, soldOutInventory) :=
  ⟨by decide, C9_failed_order_fails_again scenarioFoods soldOutInventory [1] (by decide)⟩

/-! ## The decoder and the handler -/

theorem length_readFoodIds (u : Uninit) (n i : Nat) (iss : IStream) :
    (readFoodIds u n i iss).length = n := by
  induction n generalizing i iss with
  | zero => rfl
  | succ n ih => simp [readFoodIds, ih]

theorem length_decodeOrder (received : List Char) (u : Uninit) :
    (decodeOrder received u).2.length = (decodeOrder received u).1.toNat := by
  simp [decodeOrder, length_readFoodIds]

/-- C7 as stated fails: no bound below the largest `int` limits the decoded order.
The frame `2147483647` is decoded into an order of 2147483647 food ids. -/
theorem C7_counterexample_no_bound :
    ¬ ∃ N : Nat, N < 2147483647 ∧
      ∀ (received : List Char) (u : Uninit), (decodeOrder received u).2.length ≤ N := by
  rintro ⟨N, hN, h⟩
  have h1 := h ['2', '1', '4', '7', '4', '8', '3', '6', '4', '7'] zeroUninit
  rw [length_decodeOrder] at h1
  have h2 : (decodeOrder ['2', '1', '4', '7', '4', '8', '3', '6', '4', '7'] zeroUninit).1
      = 2147483647 := by decide
  rw [h2] at h1
  have h3 : (2147483647 : Int).toNat = 2147483647 := by decide
  omega

/-- C7, amended: the decoder rejects no frame and bounds no count. The loop runs
`max(count, 0)` times for the `int` count that was extracted, the decoded order
has exactly that many food ids, and `handleClient` hands it to
`checkAndDeductInventory` whenever bytes were received. The frame `2147483647`
is decoded into 2147483647 food ids. -/
theorem C7_decoded_length_is_count (foods : Foods) (inventory : Inventory)
    (orderLog : List LogRecord) (received : List Char) (time : String) (logOpens : Bool)
    (u : Uninit) :
    (decodeOrder received u).2.length = (decodeOrder received u).1.toNat ∧
    (handleClient foods inventory orderLog received time logOpens u).reserved
      = (if received.length ≤ 0 then [] else [(decodeOrder received u).2]) ∧
    (decodeOrder ['2', '1', '4', '7', '4', '8', '3', '6', '4', '7'] u).2.length
      = 2147483647 := by
  refine ⟨length_decodeOrder received u, ?_, ?_⟩
  · unfold handleClient
    split <;> rfl
  · rw [length_decodeOrder]
    have h : (decodeOrder ['2', '1', '4', '7', '4', '8', '3', '6', '4', '7'] u).1
        = 2147483647 := by rfl
    rw [h]
    decide

/-- C8 as stated fails: when `order.log` cannot be opened, the request `1 1` is
answered with `1` and no audit record is written. -/
theorem C8_counterexample_log_not_open :
    (handleClient scenarioFoods scenarioInventory [] ['1', ' ', '1'] "12-00-00" false
      zeroUninit).sent = ["1"] ∧
    (handleClient scenarioFoods scenarioInventory [] ['1', ' ', '1'] "12-00-00" false
      zeroUninit).orderLog = [] := by
  decide

/-- C8, amended: for every request with received bytes, `handleClient` sends exactly
one response, `1` when `checkAndDeductInventory` returned `true` and `-1` when it
returned `false`; when `order.log` opens it appends exactly one record, whose
outcome is the success marker in the first case and the failure marker in the
second, and when `order.log` does not open it appends none. -/
theorem C8_response_and_record_agree (foods : Foods) (inventory : Inventory)
    (orderLog : List LogRecord) (received : List Char) (time : String) (logOpens : Bool)
    (u : Uninit) (hreceived : 0 < received.length) :
    (handleClient foods inventory orderLog received time logOpens u).sent
      = [if (checkAndDeductInventory foods inventory (decodeOrder received u).2).1
          then "1" else "-1"] ∧
    (handleClient foods inventory orderLog received time logOpens u).orderLog
      = (if logOpens then
          orderLog ++ [⟨time, orderText foods (decodeOrder received u).2,
            if (checkAndDeductInventory foods inventory (decodeOrder received u).2).1
              then successMarker else failureMarker,
            getInventoryStatus
              (checkAndDeductInventory foods inventory (decodeOrder received u).2).2⟩]
        else orderLog) ∧
    (handleClient foods inventory orderLog received time logOpens u).reserved
      = [(decodeOrder received u).2] ∧
    successMarker ≠ failureMarker := by
  unfold handleClient
  rw [if_neg (by omega)]
  refine ⟨rfl, ?_, rfl, by decide⟩
  cases logOpens <;> simp [writeLog]

/-- C8 amended, at the request `1 1` of Scenario 1 with `order.log` open: the
response is `1` and the one record carries the success marker. -/
theorem C8_witness_one_burger :
    0 < ['1', ' ', '1'].length ∧
    (handleClient scenarioFoods scenarioInventory [] ['1', ' ', '1'] "12-00-00" true
      zeroUninit).sent
      = [if (checkAndDeductInventory scenarioFoods scenarioInventory
          (decodeOrder ['1', ' ', '1'] zeroUninit).2).1 then "1" else "-1"] ∧
    (handleClient scenarioFoods scenarioInventory [] ['1', ' ', '1'] "12-00-00" true
      zeroUninit).sent = ["1"] ∧
    (handleClient scenarioFoods scenarioInventory [] ['1', ' ', '1'] "12-00-00" true
      zeroUninit).orderLog
      = [⟨"12-00-00", "1(Burger)", successMarker, "bun 1; patty 1; potato 5;"⟩] :=
  ⟨by decide,
    (C8_response_and_record_agree scenarioFoods scenarioInventory []
      ['1', ' ', '1'] "12-00-00" true zeroUninit (by decide)).1,
    by decide, by decide⟩

end OrderServer
